import Mathlib

/-!
Shallow embedding of `src/fin_ai.py` (a Streamlit + LangChain financial
chat agent over the sectors.app REST API), together with proofs settling
the specification claims about it.

Modelling conventions:
* Python `float` prices are modelled as exact rationals (`ℚ`); volumes
  are natural numbers; string escaping inside the JSON serializer is
  elided (no claim depends on it).
* The JSON dictionary `data_dict` consumed by
  `get_top_companies_by_tx_volume` is modelled as the list of its values
  in insertion order (`List (List TradeRecord)`); the date keys are
  never read by the code, only `data_dict.values()` is iterated.
* The Python `dict` keyed by symbol (`aggregated_data`) is modelled as
  an association list in insertion order, which is exactly the
  membership/update/iteration behaviour Python guarantees for `dict`.
* `sorted(l, key=..., reverse=True)` is a stable descending sort; it is
  modelled as `List.insertionSort` with the relation
  `fun a b => key b ≤ key a`, which keeps an earlier element in front of
  later elements with an equal key, i.e. is stable, and sorts
  descending.
* Network effects are made explicit by passing the fetch function as an
  argument, so "no network call is issued" is expressed as "the result
  is the same for every fetch function".
* Python's exception hierarchy (`HTTPError < RequestException <
  Exception`, while `SystemExit` derives from `BaseException` only and
  is not an `Exception`) is modelled just finely enough for the
  chat-loop `except` clauses of `fin_ai.py` lines 269-277.
-/

namespace FinAI

/-- One trade record inside one date's list of the `most-traded`
payload, as read by `get_top_companies_by_tx_volume`
(`fin_ai.py` lines 90-94). -/
structure TradeRecord where
  symbol : String
  company_name : String
  volume : ℕ
  price : ℚ
  deriving DecidableEq, Repr

/-- One accumulator value of the Python dict `aggregated_data`
(`fin_ai.py` lines 101-107): before the averaging pass, `avg_price`
holds the running price total, as in the source. -/
structure Acc where
  symbol : String
  volume : ℕ
  avg_price : ℚ
  count : ℕ
  company_name : String
  deriving DecidableEq, Repr

/-- One step of the aggregation loop body (`fin_ai.py` lines 95-107):
if the symbol is already a key of the dict, add the record's volume and
price to the running totals and bump the count (the stored
`company_name` is left unchanged); otherwise append a fresh accumulator
at the end, which is where Python dicts insert new keys. -/
def updateAcc : List Acc → TradeRecord → List Acc
  | [], r => [⟨r.symbol, r.volume, r.price, 1, r.company_name⟩]
  | a :: rest, r =>
    if a.symbol = r.symbol then
      { a with volume := a.volume + r.volume,
               avg_price := a.avg_price + r.price,
               count := a.count + 1 } :: rest
    else
      a :: updateAcc rest r

/-- The double loop of `fin_ai.py` lines 89-107, flattened: records are
visited date list by date list, in order. -/
def aggregate (rs : List TradeRecord) : List Acc :=
  rs.foldl updateAcc []

/-- The averaging pass of `fin_ai.py` lines 110-111: replace each
accumulator's running price total by total divided by count. -/
def finalizeAvg (m : List Acc) : List Acc :=
  m.map (fun a => { a with avg_price := a.avg_price / (a.count : ℚ) })

/-- Python's `sorted(..., key=lambda x: x.volume, reverse=True)`
(`fin_ai.py` line 114): a stable sort, descending by volume. -/
def sortPy (l : List Acc) : List Acc :=
  l.insertionSort (fun a b => b.volume ≤ a.volume)

/-- The whole aggregation step of `get_top_companies_by_tx_volume`
(`fin_ai.py` lines 88-114): aggregate all records of all dates, average
the prices, sort descending by total volume, truncate to `top_n`. -/
def getTop (input : List (List TradeRecord)) (top_n : ℕ) : List Acc :=
  (sortPy (finalizeAvg (aggregate input.flatten))).take top_n

/-- Records of `rs` whose symbol is `s`, in order. -/
def recordsFor (rs : List TradeRecord) (s : String) : List TradeRecord :=
  rs.filter (fun r => r.symbol == s)

/-- Number of date lists of the input that contain at least one record
for symbol `s` ("dates contributing", in the spec's words). -/
def datesContributing (input : List (List TradeRecord)) (s : String) : ℕ :=
  (input.filter (fun day => day.any (fun r => r.symbol == s))).length

/-- First-seen deduplication with an explicit seen accumulator: the key
order a Python dict ends up with after inserting the given keys in
order. -/
def fsAux (seen : List String) : List String → List String
  | [] => []
  | s :: ss => if s ∈ seen then fsAux seen ss else s :: fsAux (s :: seen) ss

/-- Distinct elements of `l` in order of first occurrence. -/
def firstSeen (l : List String) : List String :=
  fsAux [] l

/-- The full `get_top_companies_by_tx_volume` tool (`fin_ai.py` lines
63-116) with the network abstracted as an explicit `fetch` argument:
the `assert top_n > 0` of line 79 runs before the URL is built and
before any fetch happens. -/
def get_top_companies_by_tx_volume (fetch : String → List (List TradeRecord))
    (start_date end_date : String) (top_n : ℤ) : Except String (List Acc) :=
  if top_n > 0 then
    Except.ok (getTop
      (fetch ("https://api.sectors.app/v1/most-traded/?start=" ++ start_date
        ++ "&end=" ++ end_date ++ "&n_stock=" ++ toString top_n))
      top_n.toNat)
  else
    Except.error ("Please enter a valid value (cannot be minus and 0)")

/-- The eight section names accepted by `get_company_report`
(`fin_ai.py` lines 55-56). -/
def valid_sections : List String :=
  ["overview", "valuation", "future", "peers", "financials",
   "dividend", "management", "ownership"]

/-- The `get_company_report` tool (`fin_ai.py` lines 37-61) with the
network abstracted as an explicit `fetch` argument: the two asserts of
lines 57-58 (section in the valid list, then symbol length 4) run
before the URL is built and before any fetch happens. -/
def get_company_report (fetch : String → String)
    (stock : String) (sections : String) : Except String String :=
  if sections ∈ valid_sections then
    if stock.length = 4 then
      Except.ok (fetch ("https://api.sectors.app/v1/company/report/" ++ stock
        ++ "/?sections=" ++ sections))
    else
      Except.error ("Symbol saham harus 4 digit, e.g BBRI")
  else
    Except.error ("Please specify a section from the documentation")

/-- JSON values, as produced by `response.json()`. -/
inductive Json where
  | null
  | bool (b : Bool)
  | num (q : ℚ)
  | str (s : String)
  | arr (elems : List Json)
  | obj (fields : List (String × Json))

mutual

/-- Python's `json.dumps` with default separators (string escaping
elided). -/
def json_dumps : Json → String
  | Json.null => "null"
  | Json.bool true => "true"
  | Json.bool false => "false"
  | Json.num q => toString q
  | Json.str s => "\"" ++ s ++ "\""
  | Json.arr xs => "[" ++ dumpsElems xs ++ "]"
  | Json.obj fs => "\x7b" ++ dumpsFields fs ++ "\x7d"

/-- Comma-separated serialization of a JSON array's elements. -/
def dumpsElems : List Json → String
  | [] => ""
  | [x] => json_dumps x
  | x :: xs => json_dumps x ++ ", " ++ dumpsElems xs

/-- Comma-separated serialization of a JSON object's fields. -/
def dumpsFields : List (String × Json) → String
  | [] => ""
  | [(k, v)] => "\"" ++ k ++ "\": " ++ json_dumps v
  | (k, v) :: fs => "\"" ++ k ++ "\": " ++ json_dumps v ++ ", " ++ dumpsFields fs

end

/-- An HTTP response: status code and parsed JSON body. -/
structure Response where
  status : ℕ
  body : Json

/-- The Python exceptions relevant to `fin_ai.py`, at the granularity
of its `except` clauses. `requests.exceptions.HTTPError` is a subclass
of `requests.exceptions.RequestException`, which is a subclass of
`Exception`; `SystemExit` derives from `BaseException` only and is NOT
an `Exception`. -/
inductive PyExc where
  | httpError (status : ℕ)
  | requestException
  | otherException
  | systemExit
  deriving DecidableEq, Repr

/-- Python values that matter here: a `str` or a parsed JSON value. -/
inductive PyObj where
  | pyStr (s : String)
  | pyJson (j : Json)

/-- Whether a status code is a success (2xx) code. -/
def is2xx (status : ℕ) : Bool :=
  200 ≤ status && status < 300

/-- `response.raise_for_status()`: raises `HTTPError` carrying the
status on a non-2xx response, does nothing otherwise. -/
def raise_for_status (resp : Response) : Option PyExc :=
  if is2xx resp.status then none else some (PyExc.httpError resp.status)

/-- Whether an exception is a `requests.exceptions.HTTPError`. -/
def isHTTPError : PyExc → Bool
  | PyExc.httpError _ => true
  | _ => false

/-- `retrieve_from_endpoint` (`fin_ai.py` lines 25-34): issue the GET,
raise for status, and on success return `json.dumps(data)` — a string,
not the parsed dict. The `except requests.exceptions.HTTPError` clause
re-raises the error as `SystemExit(err)`. -/
def retrieve_from_endpoint (resp : Response) : Except PyExc PyObj :=
  match raise_for_status resp with
  | some e => if isHTTPError e then Except.error PyExc.systemExit else Except.error e
  | none => Except.ok (PyObj.pyStr (json_dumps resp.body))

/-- What one attempted fetch inside a tool can run into: a response
(of any status) or a network-level failure raised by `requests.get`
itself. -/
inductive FetchOutcome where
  | response (resp : Response)
  | networkFailure

/-- The exception behaviour of a tool's fetch: a network-level failure
is a `RequestException` but not an `HTTPError`, so the `except` clause
inside `retrieve_from_endpoint` does not catch it and it propagates
unchanged; an HTTP response goes through `retrieve_from_endpoint`. -/
def toolFetch : FetchOutcome → Except PyExc PyObj
  | FetchOutcome.response resp => retrieve_from_endpoint resp
  | FetchOutcome.networkFailure => Except.error PyExc.requestException

/-- What the chat-loop UI shows for one turn. -/
inductive UIOutcome where
  | answered
  | usageLimitMsg
  | httpStatusMsg (status : ℕ)
  | networkMsg
  | genericErrorMsg
  | uncaughtExit
  deriving DecidableEq, Repr

/-- The `except` clauses of the chat loop (`fin_ai.py` lines 269-277),
tried in order: `HTTPError` (with a distinct message for status 429),
then `RequestException`, then `Exception`. `SystemExit` is not an
`Exception`, so no clause catches it and the script run terminates. -/
def handleTurnError : PyExc → UIOutcome
  | PyExc.httpError s => if s = 429 then UIOutcome.usageLimitMsg else UIOutcome.httpStatusMsg s
  | PyExc.requestException => UIOutcome.networkMsg
  | PyExc.otherException => UIOutcome.genericErrorMsg
  | PyExc.systemExit => UIOutcome.uncaughtExit

/-- One chat turn whose tool call hits the given fetch outcome: an
exception escaping the tool propagates through the agent executor to
the chat loop's handlers. -/
def chatTurn (f : FetchOutcome) : UIOutcome :=
  match toolFetch f with
  | Except.ok _ => UIOutcome.answered
  | Except.error e => handleTurnError e

/-- The tools the repository defines, by name (`fin_ai.py`). -/
inductive ToolName where
  | company_report
  | top_companies_by_tx_volume
  | daily_tx
  | company_performance_ipo
  | companies_by_subsector
  | subsector_report
  deriving DecidableEq, Repr

/-- The tool list registered with the agent executor (`fin_ai.py`
lines 178-184), verbatim: five entries; `get_subsector_report` is
defined at lines 161-168 but does not appear here. -/
def tools : List ToolName :=
  [ToolName.company_report,
   ToolName.top_companies_by_tx_volume,
   ToolName.daily_tx,
   ToolName.company_performance_ipo,
   ToolName.companies_by_subsector]

/-! ### Lemmas about the stable descending sort -/

/-- Inserting into a volume-descending list keeps it volume-descending. -/
theorem pairwise_orderedInsert_volume (x : Acc) (l : List Acc)
    (h : l.Pairwise (fun a b => b.volume ≤ a.volume)) :
    (l.orderedInsert (fun a b => b.volume ≤ a.volume) x).Pairwise
      (fun a b => b.volume ≤ a.volume) := by
  induction l with
  | nil => simp [List.orderedInsert]
  | cons y ys ih =>
    rw [List.pairwise_cons] at h
    by_cases hxy : y.volume ≤ x.volume
    · rw [List.orderedInsert, if_pos hxy]
      refine List.pairwise_cons.mpr ⟨?_, List.pairwise_cons.mpr ⟨h.1, h.2⟩⟩
      intro z hz
      rcases List.mem_cons.mp hz with rfl | hz2
      · exact hxy
      · exact le_trans (h.1 z hz2) hxy
    · rw [List.orderedInsert, if_neg hxy]
      refine List.pairwise_cons.mpr ⟨?_, ih h.2⟩
      intro z hz
      rcases (List.mem_orderedInsert _).mp hz with rfl | hz2
      · exact le_of_not_le hxy
      · exact h.1 z hz2

/-- The result of the modelled Python sort is volume-descending. -/
theorem sortPy_pairwise (l : List Acc) :
    (sortPy l).Pairwise (fun a b => b.volume ≤ a.volume) := by
  unfold sortPy
  induction l with
  | nil => simp [List.insertionSort]
  | cons x xs ih =>
    rw [List.insertionSort]
    exact pairwise_orderedInsert_volume x _ ih

/-- Inserting an element does not disturb the sequence of entries of any
fixed volume other than by adding the new element in front of its own
volume class: elements skipped by the insertion have strictly larger
volume. -/
theorem filter_orderedInsert_volume (v : ℕ) (x : Acc) (l : List Acc) :
    (l.orderedInsert (fun a b => b.volume ≤ a.volume) x).filter
        (fun a => a.volume == v) =
      if x.volume = v then x :: l.filter (fun a => a.volume == v)
      else l.filter (fun a => a.volume == v) := by
  induction l with
  | nil =>
    by_cases hx : x.volume = v <;> simp [List.orderedInsert, hx]
  | cons y ys ih =>
    by_cases hxy : y.volume ≤ x.volume
    · rw [List.orderedInsert, if_pos hxy]
      by_cases hx : x.volume = v <;>
        by_cases hy : y.volume = v <;>
          simp [List.filter_cons, hx, hy]
    · have hlt : x.volume < y.volume := lt_of_not_le hxy
      by_cases hx : x.volume = v
      · have hy : ¬ (y.volume = v) := by omega
        rw [List.orderedInsert, if_neg hxy]
        simp [List.filter_cons, hy, ih, hx]
      · rw [List.orderedInsert, if_neg hxy]
        by_cases hy : y.volume = v <;> simp [List.filter_cons, hy, ih, hx]

/-- Stability of the modelled Python sort: the subsequence of entries
having any fixed total volume is exactly the same, in the same order,
before and after sorting. -/
theorem filter_sortPy (v : ℕ) (l : List Acc) :
    (sortPy l).filter (fun a => a.volume == v) =
      l.filter (fun a => a.volume == v) := by
  unfold sortPy
  induction l with
  | nil => rfl
  | cons x xs ih =>
    rw [List.insertionSort, filter_orderedInsert_volume]
    by_cases hx : x.volume = v <;> simp [List.filter_cons, hx, ih]

/-! ### Lemmas about first-seen key order -/

/-- `fsAux` only looks at which strings are in `seen`, not their
arrangement. -/
theorem fsAux_congr (seen seen2 : List String) (l : List String)
    (h : ∀ x, x ∈ seen ↔ x ∈ seen2) : fsAux seen l = fsAux seen2 l := by
  induction l generalizing seen seen2 with
  | nil => rfl
  | cons s ss ih =>
    by_cases hs : s ∈ seen
    · rw [fsAux, fsAux, if_pos hs, if_pos ((h s).mp hs)]
      exact ih _ _ h
    · have hs2 : s ∉ seen2 := fun hc => hs ((h s).mpr hc)
      rw [fsAux, fsAux, if_neg hs, if_neg hs2]
      congr 1
      refine ih _ _ (fun x => ?_)
      simp [List.mem_cons, h x]

/-- Membership in `fsAux seen l`: the elements of `l` not already
seen. -/
theorem mem_fsAux (x : String) (l : List String) : ∀ seen : List String,
    x ∈ fsAux seen l ↔ x ∈ l ∧ x ∉ seen := by
  induction l with
  | nil => intro seen; simp [fsAux]
  | cons s ss ih =>
    intro seen
    by_cases hs : s ∈ seen
    · rw [fsAux, if_pos hs, ih]
      by_cases hxs : x = s
      · subst hxs; simp [hs]
      · simp [List.mem_cons, hxs]
    · rw [fsAux, if_neg hs]
      by_cases hxs : x = s
      · subst hxs; simp [hs]
      · rw [List.mem_cons]
        simp only [hxs, false_or, ih, List.mem_cons]

/-- `fsAux` produces no duplicates. -/
theorem nodup_fsAux (l : List String) : ∀ seen : List String,
    (fsAux seen l).Nodup := by
  induction l with
  | nil => intro seen; simp [fsAux]
  | cons s ss ih =>
    intro seen
    by_cases hs : s ∈ seen
    · rw [fsAux, if_pos hs]; exact ih seen
    · rw [fsAux, if_neg hs]
      refine List.nodup_cons.mpr ⟨?_, ih _⟩
      intro hc
      exact ((mem_fsAux s ss _).mp hc).2 (List.mem_cons_self s seen)

/-- The distinct-in-order list has as many elements as the set of
distinct elements. -/
theorem length_firstSeen_eq_card (l : List String) :
    (firstSeen l).length = l.toFinset.card := by
  have hn : (firstSeen l).Nodup := nodup_fsAux l []
  have hfs : (firstSeen l).toFinset = l.toFinset := by
    ext x
    simp [List.mem_toFinset, firstSeen, mem_fsAux]
  calc (firstSeen l).length
      = (firstSeen l).toFinset.card := (List.toFinset_card_of_nodup hn).symm
    _ = l.toFinset.card := by rw [hfs]

/-! ### Lemmas about the accumulator dictionary -/

/-- One update step either keeps the key sequence (key already present)
or appends the new key at the end, exactly like a Python dict. -/
theorem map_symbol_updateAcc (m : List Acc) (r : TradeRecord) :
    (updateAcc m r).map (fun a => a.symbol) =
      if r.symbol ∈ m.map (fun a => a.symbol) then m.map (fun a => a.symbol)
      else m.map (fun a => a.symbol) ++ [r.symbol] := by
  induction m with
  | nil => simp [updateAcc]
  | cons a rest ih =>
    by_cases h : a.symbol = r.symbol
    · rw [updateAcc, if_pos h]
      simp [List.mem_cons, h]
    · rw [updateAcc, if_neg h]
      have hne : ¬ (r.symbol = a.symbol) := fun he => h he.symm
      by_cases hm : r.symbol ∈ rest.map (fun x => x.symbol) <;>
        simp [List.mem_cons, hne, hm, ih]

/-- The key sequence of the dictionary after folding in all records:
the keys it started with, followed by the not-yet-seen symbols in order
of first occurrence. -/
theorem map_symbol_foldl (rs : List TradeRecord) : ∀ m : List Acc,
    (rs.foldl updateAcc m).map (fun a => a.symbol) =
      m.map (fun a => a.symbol) ++
        fsAux (m.map (fun a => a.symbol)) (rs.map (fun r => r.symbol)) := by
  induction rs with
  | nil => intro m; simp [fsAux]
  | cons r rs ih =>
    intro m
    rw [List.foldl_cons, ih]
    by_cases h : r.symbol ∈ m.map (fun a => a.symbol)
    · rw [map_symbol_updateAcc, if_pos h, List.map_cons, fsAux, if_pos h]
    · rw [map_symbol_updateAcc, if_neg h, List.map_cons, fsAux, if_neg h,
        List.append_assoc, List.singleton_append]
      congr 1
      congr 1
      refine fsAux_congr _ _ _ (fun x => ?_)
      simp [List.mem_append, List.mem_cons, or_comm]

/-- The key sequence of the finished dictionary is the input's symbols
in order of first occurrence. -/
theorem map_symbol_aggregate (rs : List TradeRecord) :
    (aggregate rs).map (fun a => a.symbol) =
      firstSeen (rs.map (fun r => r.symbol)) := by
  have h := map_symbol_foldl rs []
  simpa [aggregate, firstSeen] using h

/-- The finished dictionary has pairwise distinct keys. -/
theorem nodup_map_symbol_aggregate (rs : List TradeRecord) :
    ((aggregate rs).map (fun a => a.symbol)).Nodup := by
  rw [map_symbol_aggregate]
  exact nodup_fsAux _ []

/-- Looking a symbol up after one update step: the step touches exactly
the accumulator of the record's own symbol, adding the record's volume
and price and bumping the count, or creating a fresh accumulator from
the record when the symbol is new. -/
theorem find?_updateAcc (m : List Acc) (r : TradeRecord) (s : String) :
    (updateAcc m r).find? (fun a => a.symbol == s) =
      if r.symbol = s then
        match m.find? (fun a => a.symbol == s) with
        | some a => some { a with volume := a.volume + r.volume,
                                  avg_price := a.avg_price + r.price,
                                  count := a.count + 1 }
        | none => some ⟨r.symbol, r.volume, r.price, 1, r.company_name⟩
      else m.find? (fun a => a.symbol == s) := by
  induction m with
  | nil =>
    by_cases hr : r.symbol = s
    · have hb : (r.symbol == s) = true := by simp [hr]
      simp [updateAcc, List.find?, hb, hr]
    · have hb : (r.symbol == s) = false := by simp [hr]
      simp [updateAcc, List.find?, hb, hr]
  | cons a rest ih =>
    by_cases ha : a.symbol = r.symbol
    · rw [updateAcc, if_pos ha]
      by_cases hr : r.symbol = s
      · have hb : (a.symbol == s) = true := by simp [ha, hr]
        rw [if_pos hr]
        rw [List.find?_cons_of_pos _ (by simp [hb]),
          List.find?_cons_of_pos _ (by simp [hb])]
      · have hb : (a.symbol == s) = false := by simp [ha, hr]
        rw [if_neg hr]
        rw [List.find?_cons_of_neg _ (by simp [hb]),
          List.find?_cons_of_neg _ (by simp [hb])]
    · rw [updateAcc, if_neg ha]
      by_cases has : a.symbol = s
      · have hr : ¬ (r.symbol = s) := fun he => ha (has ▸ he.symm ▸ rfl)
        rw [if_neg hr]
        rw [List.find?_cons_of_pos _ (by simp [has]),
          List.find?_cons_of_pos _ (by simp [has])]
      · rw [List.find?_cons_of_neg _ (by simp [has]), ih]
        by_cases hr : r.symbol = s
        · rw [if_pos hr, if_pos hr,
            List.find?_cons_of_neg _ (by simp [has])]
        · rw [if_neg hr, if_neg hr,
            List.find?_cons_of_neg _ (by simp [has])]

/-- Folding records into a dictionary that already has an accumulator
for `s` adds, to that accumulator, the total volume, total price and
number of the records for `s`, and touches none of its other fields. -/
theorem find?_foldl_some (rs : List TradeRecord) :
    ∀ (m : List Acc) (s : String) (a : Acc),
    m.find? (fun x => x.symbol == s) = some a →
    (rs.foldl updateAcc m).find? (fun x => x.symbol == s) =
      some { a with
        volume := a.volume + ((recordsFor rs s).map (fun r => r.volume)).sum,
        avg_price := a.avg_price + ((recordsFor rs s).map (fun r => r.price)).sum,
        count := a.count + (recordsFor rs s).length } := by
  induction rs with
  | nil =>
    intro m s a h
    obtain ⟨s0, v0, p0, c0, n0⟩ := a
    simpa [recordsFor] using h
  | cons r rs ih =>
    intro m s a h
    rw [List.foldl_cons]
    by_cases hr : r.symbol = s
    · have h2 : (updateAcc m r).find? (fun x => x.symbol == s) =
          some { a with volume := a.volume + r.volume,
                        avg_price := a.avg_price + r.price,
                        count := a.count + 1 } := by
        rw [find?_updateAcc, if_pos hr, h]
      rw [ih _ s _ h2]
      have hrf : recordsFor (r :: rs) s = r :: recordsFor rs s := by
        simp [recordsFor, List.filter_cons, hr]
      obtain ⟨s0, v0, p0, c0, n0⟩ := a
      simp only [hrf, List.map_cons, List.sum_cons, List.length_cons,
        Option.some.injEq, Acc.mk.injEq, eq_self_iff_true, true_and, and_true]
      refine ⟨by ring, by ring, by omega⟩
    · have h2 : (updateAcc m r).find? (fun x => x.symbol == s) = some a := by
        rw [find?_updateAcc, if_neg hr, h]
      rw [ih _ s _ h2]
      have hrf : recordsFor (r :: rs) s = recordsFor rs s := by
        simp [recordsFor, List.filter_cons, hr]
      rw [hrf]

/-- Folding records into a dictionary with no accumulator for `s`: if
no record is for `s` there still is none; otherwise the accumulator for
`s` was created from the first record for `s` (whose symbol and company
name it keeps) and holds the total volume, total price and number of
the records for `s`. -/
theorem find?_foldl_none (rs : List TradeRecord) :
    ∀ (m : List Acc) (s : String),
    m.find? (fun x => x.symbol == s) = none →
    (rs.foldl updateAcc m).find? (fun x => x.symbol == s) =
      match recordsFor rs s with
      | [] => none
      | r0 :: _ => some ⟨r0.symbol,
          ((recordsFor rs s).map (fun r => r.volume)).sum,
          ((recordsFor rs s).map (fun r => r.price)).sum,
          (recordsFor rs s).length,
          r0.company_name⟩ := by
  induction rs with
  | nil =>
    intro m s h
    simpa [recordsFor] using h
  | cons r rs ih =>
    intro m s h
    rw [List.foldl_cons]
    by_cases hr : r.symbol = s
    · have h2 : (updateAcc m r).find? (fun x => x.symbol == s) =
          some ⟨r.symbol, r.volume, r.price, 1, r.company_name⟩ := by
        rw [find?_updateAcc, if_pos hr, h]
      rw [find?_foldl_some rs _ s _ h2]
      have hrf : recordsFor (r :: rs) s = r :: recordsFor rs s := by
        simp [recordsFor, List.filter_cons, hr]
      simp only [hrf, List.map_cons, List.sum_cons, List.length_cons,
        Option.some.injEq, Acc.mk.injEq, eq_self_iff_true, true_and, and_true]
      omega
    · have h2 : (updateAcc m r).find? (fun x => x.symbol == s) = none := by
        rw [find?_updateAcc, if_neg hr, h]
      rw [ih _ s h2]
      have hrf : recordsFor (r :: rs) s = recordsFor rs s := by
        simp [recordsFor, List.filter_cons, hr]
      rw [hrf]

/-- The finished dictionary's entry for a symbol, in terms of the
records for that symbol. -/
theorem find?_aggregate (rs : List TradeRecord) (s : String) :
    (aggregate rs).find? (fun x => x.symbol == s) =
      match recordsFor rs s with
      | [] => none
      | r0 :: _ => some ⟨r0.symbol,
          ((recordsFor rs s).map (fun r => r.volume)).sum,
          ((recordsFor rs s).map (fun r => r.price)).sum,
          (recordsFor rs s).length,
          r0.company_name⟩ :=
  find?_foldl_none rs [] s rfl

/-- In a list with pairwise distinct keys, `find?` on a member's key
returns that member. -/
theorem find?_eq_of_mem_of_nodup_keys (l : List Acc)
    (hn : (l.map (fun a => a.symbol)).Nodup) (b : Acc) (hb : b ∈ l) :
    l.find? (fun a => a.symbol == b.symbol) = some b := by
  induction l with
  | nil => cases hb
  | cons c cs ih =>
    rw [List.map_cons, List.nodup_cons] at hn
    rcases List.mem_cons.mp hb with rfl | hb2
    · rw [List.find?_cons_of_pos _ (by simp)]
    · have hcb : ¬ (c.symbol = b.symbol) := by
        have hmem : b.symbol ∈ cs.map (fun a => a.symbol) :=
          List.mem_map_of_mem _ hb2
        intro he
        exact hn.1 (he ▸ hmem)
      rw [List.find?_cons_of_neg _ (by simp [hcb])]
      exact ih hn.2 hb2

/-- Every entry of the aggregation output comes from an entry of the
finished dictionary by the averaging pass. -/
theorem mem_getTop (input : List (List TradeRecord)) (n : ℕ) (a : Acc)
    (ha : a ∈ getTop input n) :
    ∃ b ∈ aggregate input.flatten,
      a = { b with avg_price := b.avg_price / (b.count : ℚ) } := by
  have ha2 : a ∈ (sortPy (finalizeAvg (aggregate input.flatten))).take n := ha
  have h1 : a ∈ sortPy (finalizeAvg (aggregate input.flatten)) :=
    List.take_subset _ _ ha2
  have h2 : a ∈ finalizeAvg (aggregate input.flatten) := by
    simpa [sortPy] using h1
  rcases List.mem_map.mp h2 with ⟨b, hb, he⟩
  exact ⟨b, hb, he.symm⟩

/-- Every entry of the aggregation output is fully determined by the
records carrying its symbol: symbol and company name come from the
first such record, `volume` is their total volume, `count` is their
number, and `avg_price` is their total price divided by their
number. -/
theorem getTop_entry_spec (input : List (List TradeRecord)) (n : ℕ) (a : Acc)
    (ha : a ∈ getTop input n) :
    ∃ r0 rest, recordsFor input.flatten a.symbol = r0 :: rest ∧
      a.symbol = r0.symbol ∧
      a.company_name = r0.company_name ∧
      a.volume = ((recordsFor input.flatten a.symbol).map (fun r => r.volume)).sum ∧
      a.count = (recordsFor input.flatten a.symbol).length ∧
      a.avg_price =
        ((recordsFor input.flatten a.symbol).map (fun r => r.price)).sum /
          ((recordsFor input.flatten a.symbol).length : ℚ) := by
  rcases mem_getTop input n a ha with ⟨b, hb, hab⟩
  have hsym : a.symbol = b.symbol := by rw [hab]
  have hf := find?_eq_of_mem_of_nodup_keys _
    (nodup_map_symbol_aggregate input.flatten) b hb
  have hagg := find?_aggregate input.flatten b.symbol
  rw [hf] at hagg
  rcases hrec : recordsFor input.flatten b.symbol with _ | ⟨r0, rest⟩
  · rw [hrec] at hagg; cases hagg
  · rw [hrec] at hagg
    injection hagg with hb2
    have hs2 : recordsFor input.flatten a.symbol = r0 :: rest := by
      rw [hsym, hrec]
    have hvol : a.volume = b.volume := by rw [hab]
    have hcnt : a.count = b.count := by rw [hab]
    have hnam : a.company_name = b.company_name := by rw [hab]
    have havg : a.avg_price = b.avg_price / (b.count : ℚ) := by rw [hab]
    refine ⟨r0, rest, hs2, ?_, ?_, ?_, ?_, ?_⟩
    · rw [hsym, hb2]
    · rw [hnam, hb2]
    · rw [hs2, hvol, hb2]
    · rw [hs2, hcnt, hb2]
    · rw [hs2, havg, hb2]

/-- `find?` on a symbol returns the head of that symbol's record list:
the first record seen for the symbol. -/
theorem find?_symbol_eq_head?_recordsFor (rs : List TradeRecord) (s : String) :
    rs.find? (fun r => r.symbol == s) = (recordsFor rs s).head? := by
  induction rs with
  | nil => rfl
  | cons r rest ih =>
    by_cases hr : r.symbol = s
    · have hrf : recordsFor (r :: rest) s = r :: recordsFor rest s := by
        simp [recordsFor, List.filter_cons, hr]
      rw [List.find?_cons_of_pos _ (by simp [hr]), hrf]
      rfl
    · have hrf : recordsFor (r :: rest) s = recordsFor rest s := by
        simp [recordsFor, List.filter_cons, hr]
      rw [List.find?_cons_of_neg _ (by simp [hr]), hrf, ih]

/-! ### Concrete inputs used by witnesses and counterexamples -/

/-- The spec's worked scenario: two symbols on the first date, one of
them again on the second date. -/
def sampleInput : List (List TradeRecord) :=
  [[⟨"AAAA", "Alpha", 100, 10⟩, ⟨"BBBB", "Beta", 50, 20⟩],
   [⟨"AAAA", "Alpha", 200, 12⟩]]

/-- The aggregated entry for symbol AAAA of `sampleInput`. -/
def sampleAcc : Acc := ⟨"AAAA", 300, 11, 2, "Alpha"⟩

/-- A single date whose record list carries the same symbol twice. -/
def dupDay : List (List TradeRecord) :=
  [[⟨"AAAA", "Alpha", 100, 10⟩, ⟨"AAAA", "Alpha", 50, 20⟩]]

/-- The aggregated entry of `dupDay`: both occurrences fold into one
accumulator whose count is 2 although only one date contributes. -/
def dupAcc : Acc := ⟨"AAAA", 150, 15, 2, "Alpha"⟩

/-- A single date with two different symbols of equal volume. -/
def tieInput : List (List TradeRecord) :=
  [[⟨"CCCC", "Gamma", 100, 5⟩, ⟨"DDDD", "Delta", 100, 7⟩]]

/-- The first-seen entry of `tieInput`. -/
def tieAcc : Acc := ⟨"CCCC", 100, 5, 1, "Gamma"⟩

/-- A successful response carrying a small JSON object. -/
def respX : Response := ⟨200, Json.obj [("total", Json.num 3)]⟩

/-! ### Claims -/

/-- C1: for every symbol in the aggregation output of
`get_top_companies_by_tx_volume`, `avg_price` equals the unweighted
arithmetic mean of the prices of that symbol's records — total price
over number of price observations, with the per-record volumes playing
no role — and for a symbol with exactly one record it equals that
record's price. -/
theorem c1_avg_price_is_unweighted_mean (input : List (List TradeRecord))
    (n : ℕ) (a : Acc) (ha : a ∈ getTop input n) :
    a.avg_price =
      ((recordsFor input.flatten a.symbol).map (fun r => r.price)).sum /
        ((((recordsFor input.flatten a.symbol).map (fun r => r.price)).length : ℕ) : ℚ) ∧
    (∀ p : ℚ, (recordsFor input.flatten a.symbol).map (fun r => r.price) = [p] →
      a.avg_price = p) := by
  rcases getTop_entry_spec input n a ha with ⟨r0, rest, hs2, _, _, _, _, havg⟩
  constructor
  · rw [havg, List.length_map]
  · intro p hp
    have hlen : (recordsFor input.flatten a.symbol).length = 1 := by
      have := congrArg List.length hp
      simpa using this
    have hsum : ((recordsFor input.flatten a.symbol).map (fun r => r.price)).sum = p := by
      rw [hp]; simp
    rw [havg, hsum, hlen]
    norm_num

/-- Witness for C1 on the spec's worked scenario: the AAAA entry is in
the output and its average price is the unweighted mean of its two
observed prices. -/
theorem c1_witness :
    sampleAcc ∈ getTop sampleInput 2 ∧
    (sampleAcc.avg_price =
      ((recordsFor sampleInput.flatten sampleAcc.symbol).map (fun r => r.price)).sum /
        ((((recordsFor sampleInput.flatten sampleAcc.symbol).map (fun r => r.price)).length : ℕ) : ℚ) ∧
    (∀ p : ℚ, (recordsFor sampleInput.flatten sampleAcc.symbol).map (fun r => r.price) = [p] →
      sampleAcc.avg_price = p)) := by
  have hmem : sampleAcc ∈ getTop sampleInput 2 := by
    norm_num [getTop, sampleInput, sampleAcc, aggregate, updateAcc, finalizeAvg,
      sortPy, List.insertionSort, List.orderedInsert]
  exact ⟨hmem, c1_avg_price_is_unweighted_mean sampleInput 2 sampleAcc hmem⟩

/-- C2: the aggregation output of `get_top_companies_by_tx_volume` is
sorted in descending order of total volume: every earlier entry's
volume is at least every later entry's volume. -/
theorem c2_sorted_descending_by_volume (input : List (List TradeRecord)) (n : ℕ) :
    (getTop input n).Pairwise (fun a b => b.volume ≤ a.volume) :=
  (sortPy_pairwise (finalizeAvg (aggregate input.flatten))).sublist
    (List.take_sublist _ _)

/-- C3: the aggregation output of `get_top_companies_by_tx_volume` has
pairwise distinct symbols and its length is `min top_n (number of
distinct symbols in the input)`; an empty date-range input gives the
empty list rather than an error. -/
theorem c3_output_length_and_uniqueness (input : List (List TradeRecord)) (n : ℕ) :
    (getTop input n).length =
      min n ((input.flatten.map (fun r => r.symbol)).toFinset.card) ∧
    ((getTop input n).map (fun a => a.symbol)).Nodup ∧
    getTop ([] : List (List TradeRecord)) n = [] := by
  refine ⟨?_, ?_, List.take_nil⟩
  · have h1 : (getTop input n).length =
        min n (sortPy (finalizeAvg (aggregate input.flatten))).length :=
      List.length_take _ _
    have h2 : (sortPy (finalizeAvg (aggregate input.flatten))).length =
        (finalizeAvg (aggregate input.flatten)).length :=
      (List.perm_insertionSort _ _).length_eq
    have h3 : (finalizeAvg (aggregate input.flatten)).length =
        (aggregate input.flatten).length := List.length_map _ _
    have h4 : (aggregate input.flatten).length =
        (firstSeen (input.flatten.map (fun r => r.symbol))).length := by
      have := congrArg List.length (map_symbol_aggregate input.flatten)
      simpa using this
    rw [h1, h2, h3, h4, length_firstSeen_eq_card]
  · have hagg := nodup_map_symbol_aggregate input.flatten
    have hfin : (finalizeAvg (aggregate input.flatten)).map (fun a => a.symbol) =
        (aggregate input.flatten).map (fun a => a.symbol) := by
      rw [finalizeAvg, List.map_map]
      rfl
    have hperm : List.Perm (sortPy (finalizeAvg (aggregate input.flatten)))
        (finalizeAvg (aggregate input.flatten)) := List.perm_insertionSort _ _
    have hsort : ((sortPy (finalizeAvg (aggregate input.flatten))).map
        (fun a => a.symbol)).Nodup := by
      rw [(hperm.map (fun a => a.symbol)).nodup_iff, hfin]
      exact hagg
    have htake : (getTop input n).map (fun a => a.symbol) =
        ((sortPy (finalizeAvg (aggregate input.flatten))).map
          (fun a => a.symbol)).take n := by
      rw [getTop, List.map_take]
    rw [htake]
    exact hsort.sublist (List.take_sublist _ _)

/-- C4: the repository's own UI handlers would classify a propagated
`HTTPError` exactly as the spec says (429 to the usage-limit message,
other statuses to the status-detail message, network failures to the
connectivity message) — but `retrieve_from_endpoint` re-raises every
`HTTPError` as `SystemExit`, which none of the chat loop's `except
Exception`-or-narrower clauses catch, so a non-2xx response never
reaches those handlers and instead escapes the loop. -/
theorem c4_http_error_swallowed_into_system_stop :
    chatTurn (FetchOutcome.response ⟨429, Json.null⟩) = UIOutcome.uncaughtExit ∧
    chatTurn (FetchOutcome.response ⟨500, Json.null⟩) = UIOutcome.uncaughtExit ∧
    handleTurnError (PyExc.httpError 429) = UIOutcome.usageLimitMsg ∧
    handleTurnError (PyExc.httpError 500) = UIOutcome.httpStatusMsg 500 ∧
    chatTurn FetchOutcome.networkFailure = UIOutcome.networkMsg := by
  decide

/-- C5 counterexample: on a single-date input whose record list carries
the same symbol twice, the output's `count` (2) differs from the number
of dates contributing records for that symbol (1), so `count` is not
"the number of dates contributing". -/
theorem c5_counterexample :
    ((getTop dupDay 5).all
      (fun a => a.count == datesContributing dupDay a.symbol)) = false := by
  decide

/-- C5 as amended: for every symbol in the aggregation output, `count`
equals the number of records carrying that symbol across the date range
(both same-date duplicate occurrences are folded into the same
accumulator, each incrementing the count), which equals the number of
contributing dates only when no date lists a symbol twice. -/
theorem c5_count_is_record_count (input : List (List TradeRecord)) (n : ℕ)
    (a : Acc) (ha : a ∈ getTop input n) :
    a.count = (recordsFor input.flatten a.symbol).length := by
  rcases getTop_entry_spec input n a ha with ⟨r0, rest, _, _, _, _, hcnt, _⟩
  exact hcnt

/-- Witness for the amended C5 on the duplicate-symbol input: the
folded entry is in the output and its count is the number of its
records. -/
theorem c5_witness :
    dupAcc ∈ getTop dupDay 5 ∧
    dupAcc.count = (recordsFor dupDay.flatten dupAcc.symbol).length :=
  by
  have hmem : dupAcc ∈ getTop dupDay 5 := by
    norm_num [getTop, dupDay, dupAcc, aggregate, updateAcc, finalizeAvg,
      sortPy, List.insertionSort, List.orderedInsert]
  exact ⟨hmem, c5_count_is_record_count dupDay 5 dupAcc hmem⟩

/-- C6: calling `get_top_companies_by_tx_volume` with `top_n ≤ 0` fails
with the precondition error message, and the result is the same for
every fetch function — no network call is issued and the aggregation
never runs; with `top_n > 0` the precondition check passes and the call
proceeds. -/
theorem c6_top_n_precondition (fetch fetch2 : String → List (List TradeRecord))
    (start_date end_date : String) (top_n : ℤ) :
    (top_n ≤ 0 →
      get_top_companies_by_tx_volume fetch start_date end_date top_n =
        Except.error ("Please enter a valid value (cannot be minus and 0)") ∧
      get_top_companies_by_tx_volume fetch start_date end_date top_n =
        get_top_companies_by_tx_volume fetch2 start_date end_date top_n) ∧
    (0 < top_n →
      ∃ out, get_top_companies_by_tx_volume fetch start_date end_date top_n =
        Except.ok out) := by
  constructor
  · intro h
    rw [get_top_companies_by_tx_volume, get_top_companies_by_tx_volume,
      if_neg (by omega), if_neg (by omega)]
    exact ⟨rfl, rfl⟩
  · intro h
    rw [get_top_companies_by_tx_volume, if_pos h]
    exact ⟨_, rfl⟩

/-- Witness for C6 at `top_n = -1` (rejected) and `top_n = 3`
(accepted). -/
theorem c6_witness :
    get_top_companies_by_tx_volume (fun _ => []) "2024-01-01" "2024-01-05" (-1) =
      Except.error ("Please enter a valid value (cannot be minus and 0)") ∧
    (∃ out, get_top_companies_by_tx_volume (fun _ => []) "2024-01-01" "2024-01-05" 3 =
      Except.ok out) :=
  ⟨((c6_top_n_precondition (fun _ => []) (fun _ => []) "2024-01-01" "2024-01-05"
      (-1)).1 (by norm_num)).1,
   (c6_top_n_precondition (fun _ => []) (fun _ => []) "2024-01-01" "2024-01-05"
      3).2 (by norm_num)⟩

/-- C7: `get_company_report` rejects a call whose stock symbol does not
have length 4 or whose section is not one of the eight valid section
names, with a descriptive error, and the rejection is the same for
every fetch function — no network call is attempted. -/
theorem c7_company_report_preconditions (fetch fetch2 : String → String)
    (stock sections : String)
    (h : stock.length ≠ 4 ∨ sections ∉ valid_sections) :
    (∃ msg, get_company_report fetch stock sections = Except.error msg) ∧
    get_company_report fetch stock sections =
      get_company_report fetch2 stock sections := by
  rw [get_company_report, get_company_report]
  by_cases hs : sections ∈ valid_sections
  · rcases h with h4 | hsec
    · rw [if_pos hs, if_pos hs, if_neg h4, if_neg h4]
      exact ⟨⟨_, rfl⟩, rfl⟩
    · exact absurd hs hsec
  · rw [if_neg hs, if_neg hs]
    exact ⟨⟨_, rfl⟩, rfl⟩

/-- Witness for C7: a 3-letter stock is rejected, and so is an invalid
section name with a well-formed stock. -/
theorem c7_witness :
    ("BBR".length ≠ 4 ∨ "overview" ∉ valid_sections) ∧
    (∃ msg, get_company_report (fun _ => "") "BBR" "overview" = Except.error msg) ∧
    (∃ msg2, get_company_report (fun _ => "") "BBRI" "foo" = Except.error msg2) :=
  ⟨Or.inl (by decide),
   (c7_company_report_preconditions (fun _ => "") (fun _ => "x") "BBR" "overview"
      (Or.inl (by decide))).1,
   (c7_company_report_preconditions (fun _ => "") (fun _ => "x") "BBRI" "foo"
      (Or.inr (by decide))).1⟩

/-- C8 counterexample: on a 2xx response `retrieve_from_endpoint` does
not return the parsed JSON payload — the value it returns is not a JSON
value at all but a string (`json.dumps` of the payload). -/
theorem c8_counterexample :
    (match retrieve_from_endpoint respX with
      | Except.ok (PyObj.pyJson _) => true
      | _ => false) = false := rfl

/-- C8 as amended: on a 2xx response, `retrieve_from_endpoint` parses
the JSON body and returns its re-serialized text — `json.dumps` of the
parsed payload, a string — rather than the parsed JSON value itself. -/
theorem c8_returns_serialized_text (resp : Response)
    (h : is2xx resp.status = true) :
    retrieve_from_endpoint resp =
      Except.ok (PyObj.pyStr (json_dumps resp.body)) := by
  rw [retrieve_from_endpoint, raise_for_status, if_pos h]

/-- Witness for the amended C8 on a concrete 200 response. -/
theorem c8_witness :
    is2xx respX.status = true ∧
    retrieve_from_endpoint respX =
      Except.ok (PyObj.pyStr (json_dumps respX.body)) :=
  ⟨rfl, c8_returns_serialized_text respX rfl⟩

/-- C9 counterexample: the registered tool list does not contain the
subsector-report tool, so it does not contain all six data-retrieval
functions. -/
theorem c9_counterexample :
    tools.contains ToolName.subsector_report = false := by
  decide

/-- C9 as amended: the tool list registered with the agent executor
contains exactly five of the six data-retrieval functions — company
report, most-traded-by-volume, daily time series, IPO performance and
companies-by-subsector — and omits the subsector-report tool. -/
theorem c9_tool_list_has_five_of_six :
    ToolName.company_report ∈ tools ∧
    ToolName.top_companies_by_tx_volume ∈ tools ∧
    ToolName.daily_tx ∈ tools ∧
    ToolName.company_performance_ipo ∈ tools ∧
    ToolName.companies_by_subsector ∈ tools ∧
    tools.contains ToolName.subsector_report = false ∧
    tools.length = 5 := by
  decide

/-- C10: in the aggregation output, entries of any fixed total volume
keep the order in which their symbols were first seen in the input (the
sort is stable and the accumulator dictionary preserves insertion
order), and every entry's company name is the company name of the first
record seen for its symbol. -/
theorem c10_ties_first_seen_and_first_company
    (input : List (List TradeRecord)) (n : ℕ) :
    (∀ v : ℕ,
      (((getTop input n).filter (fun a => a.volume == v)).map
        (fun a => a.symbol)).Sublist
          (firstSeen (input.flatten.map (fun r => r.symbol)))) ∧
    (∀ a ∈ getTop input n,
      (input.flatten.find? (fun r => r.symbol == a.symbol)).map
        (fun r => r.company_name) = some a.company_name) := by
  constructor
  · intro v
    have h1 : List.Sublist ((getTop input n).filter (fun a => a.volume == v))
        ((sortPy (finalizeAvg (aggregate input.flatten))).filter
          (fun a => a.volume == v)) :=
      (List.take_sublist _ _).filter _
    rw [filter_sortPy] at h1
    have h2 : List.Sublist ((finalizeAvg (aggregate input.flatten)).filter
        (fun a => a.volume == v)) (finalizeAvg (aggregate input.flatten)) :=
      List.filter_sublist _
    have h3 := (h1.trans h2).map (fun a => a.symbol)
    have h4 : (finalizeAvg (aggregate input.flatten)).map (fun a => a.symbol) =
        firstSeen (input.flatten.map (fun r => r.symbol)) := by
      have hfin : (finalizeAvg (aggregate input.flatten)).map (fun a => a.symbol) =
          (aggregate input.flatten).map (fun a => a.symbol) := by
        rw [finalizeAvg, List.map_map]
        rfl
      rw [hfin]
      exact map_symbol_aggregate input.flatten
    rw [h4] at h3
    exact h3
  · intro a ha
    rcases getTop_entry_spec input n a ha with ⟨r0, rest, hs2, _, hnam, _, _, _⟩
    rw [find?_symbol_eq_head?_recordsFor, hs2]
    simp [hnam]

/-- Witness for C10 on the equal-volume input: the first-seen entry is
in the output and its company name is the first record's. -/
theorem c10_witness :
    tieAcc ∈ getTop tieInput 2 ∧
    (tieInput.flatten.find? (fun r => r.symbol == tieAcc.symbol)).map
      (fun r => r.company_name) = some tieAcc.company_name := by
  have hmem : tieAcc ∈ getTop tieInput 2 := by
    norm_num [getTop, tieInput, tieAcc, aggregate, updateAcc, finalizeAvg,
      sortPy, List.insertionSort, List.orderedInsert]
  exact ⟨hmem, (c10_ties_first_seen_and_first_company tieInput 2).2 tieAcc hmem⟩

end FinAI
